import Mathlib

/-!
Verification development for the PhotoMapAI embeddings index engine.

The definitions below are a shallow embedding of the Python sources:
  - clipslide/backend/embeddings.py   (snapshot store, cache, search, retrieval)
  - clipslide/backend/progress.py     (progress registry)
  - clipslide/backend/routers/index.py (async update endpoint)
  - src/backend/embeddings.py         (legacy duplicate of the update engine)

Python floats (modification times, similarity scores, timestamps) are
modelled as rationals: the properties verified here concern ordering,
selection and control flow, never rounding.  File paths are modelled as the
canonical POSIX strings the code stores (every path is stored via
resolve().as_posix(), so path canonicalization is the identity here).
-/

namespace Clipslide

/-- Embedding vectors (CLIP output rows); the fixed dimension is immaterial here. -/
abbrev Emb := List ℚ

/-- Opaque per-image metadata blobs (extracted EXIF / AI-generation data). -/
abbrev MetaBlob := String

/-- Kinds of runtime errors the Python code can raise. -/
inductive PyErr where
  | fileNotFound
  | valueNotFound
  | indexError
  | zeroDivision
deriving DecidableEq, Repr

/-! ## Progress tracking (progress.py) -/

/-- Status phases of an indexing operation (progress.py, IndexStatus). -/
inductive IndexStatus where
  | idle
  | scanning
  | indexing
  | completed
  | error
deriving DecidableEq, Repr

/-- One progress record (progress.py, ProgressInfo).  Timestamps are rationals. -/
structure ProgressInfo where
  album_key : String
  status : IndexStatus
  current_step : String
  images_processed : Nat
  total_images : Nat
  start_time : ℚ
  error_message : Option String
deriving DecidableEq, Repr

/-- ProgressInfo.progress_percentage: returns 0.0 when total_images is 0,
otherwise (images_processed / total_images) * 100. -/
def ProgressInfo.progress_percentage (p : ProgressInfo) : ℚ :=
  if p.total_images = 0 then 0
  else ((p.images_processed : ℚ) / (p.total_images : ℚ)) * 100

/-- ProgressInfo.elapsed_time, relative to an explicit current clock value
(the Python code reads time.time()). -/
def ProgressInfo.elapsed_time (p : ProgressInfo) (now : ℚ) : ℚ :=
  now - p.start_time

/-- ProgressInfo.estimated_time_remaining.  The images_processed = 0 case is
checked first and returns None.  Python would raise ZeroDivisionError if the
elapsed time were exactly zero; that outcome is modelled as an error value. -/
def ProgressInfo.estimated_time_remaining (p : ProgressInfo) (now : ℚ) :
    Except PyErr (Option ℚ) :=
  if p.images_processed = 0 then .ok none
  else if p.elapsed_time now = 0 then .error .zeroDivision
  else
    let rate : ℚ := (p.images_processed : ℚ) / p.elapsed_time now
    let remaining : ℚ := (p.total_images : ℚ) - (p.images_processed : ℚ)
    if 0 < rate then .ok (some (remaining / rate)) else .ok none

/-- The progress registry: album key to progress record
(ProgressTracker._progress, a dict). -/
abbrev TrackerState := List (String × ProgressInfo)

/-- ProgressTracker.get_progress. -/
def getProgress (t : TrackerState) (k : String) : Option ProgressInfo :=
  (t.find? (fun e => e.1 == k)).map (fun e => e.2)

/-- ProgressTracker.is_running: a record exists for the key and its status is
SCANNING or INDEXING. -/
def is_running (t : TrackerState) (k : String) : Bool :=
  match getProgress t k with
  | none => false
  | some p => decide (p.status = .scanning ∨ p.status = .indexing)

/-- HTTP-level outcome of POST /update_index_async/ (routers/index.py):
either an HTTPException status code, or success with the background task queued. -/
inductive EndpointOutcome where
  | httpError (statusCode : Nat)
  | started (album_key : String)
deriving DecidableEq, Repr

/-- The update_index_async endpoint (routers/index.py).  It first rejects with
status 409 when is_running holds for the key; then album validation may raise
404; otherwise the background task is queued and success is returned. -/
def update_index_async_endpoint (t : TrackerState) (album_key : String)
    (albumExists : Bool) : EndpointOutcome :=
  if is_running t album_key then .httpError 409
  else if albumExists then .started album_key
  else .httpError 404

/-- C6: starting a background indexing/update operation for an album key whose
progress record is running (scanning or indexing) is rejected with a 409
conflict and no task is queued; for a key whose record is absent or terminal
(completed / error, and also idle) is_running is false and a new operation
starts. -/
theorem update_conflict_semaphore (t : TrackerState) (k : String) (b : Bool)
    (p : ProgressInfo) :
    (is_running t k = true → update_index_async_endpoint t k b = .httpError 409) ∧
    (is_running t k = false → b = true → update_index_async_endpoint t k b = .started k) ∧
    (getProgress t k = none → is_running t k = false) ∧
    (getProgress t k = some p →
      p.status = .completed ∨ p.status = .error ∨ p.status = .idle →
      is_running t k = false) := by
  refine ⟨fun h => ?_, fun h hb => ?_, fun h => ?_, fun h hs => ?_⟩
  · simp [update_index_async_endpoint, h]
  · simp [update_index_async_endpoint, h, hb]
  · simp [is_running, h]
  · simp only [is_running, h]
    rcases hs with hs | hs | hs <;> simp [hs]

/-- Witness for C6 at a concrete registry: one album with a running record is
rejected with 409, and an album with no record starts. -/
theorem update_conflict_semaphore_witness :
    (update_index_async_endpoint
      [("alpha", ⟨"alpha", .indexing, "step", 3, 9, 0, none⟩)] "alpha" true
      = .httpError 409) ∧
    (update_index_async_endpoint
      [("alpha", ⟨"alpha", .indexing, "step", 3, 9, 0, none⟩)] "beta" true
      = .started "beta") := by
  constructor
  · exact (update_conflict_semaphore
      [("alpha", ⟨"alpha", .indexing, "step", 3, 9, 0, none⟩)] "alpha" true
      ⟨"alpha", .indexing, "step", 3, 9, 0, none⟩).1 (by decide)
  · exact (update_conflict_semaphore
      [("alpha", ⟨"alpha", .indexing, "step", 3, 9, 0, none⟩)] "beta" true
      ⟨"alpha", .indexing, "step", 3, 9, 0, none⟩).2.1 (by decide) rfl

/-- C10: progress_percentage never divides by zero: it is 0 when total_images
is 0 and otherwise satisfies percentage * total = processed * 100; and
estimated_time_remaining returns None (not an error) when images_processed
is 0. -/
theorem progress_percentage_safe (p : ProgressInfo) (now : ℚ) :
    (p.total_images = 0 → p.progress_percentage = 0) ∧
    (p.total_images ≠ 0 →
      p.progress_percentage * (p.total_images : ℚ) = (p.images_processed : ℚ) * 100) ∧
    (p.images_processed = 0 → p.estimated_time_remaining now = .ok none) := by
  refine ⟨fun h => ?_, fun h => ?_, fun h => ?_⟩
  · simp [ProgressInfo.progress_percentage, h]
  · have hq : (p.total_images : ℚ) ≠ 0 := by exact_mod_cast h
    simp only [ProgressInfo.progress_percentage, h, if_false]
    field_simp
  · simp [ProgressInfo.estimated_time_remaining, h]

/-- Witness for C10 at concrete records: total_images = 0 gives percentage 0;
a nonzero total gives the exact ratio; images_processed = 0 gives ETA None. -/
theorem progress_percentage_safe_witness :
    ProgressInfo.progress_percentage ⟨"a", .scanning, "s", 5, 0, 0, none⟩ = 0 ∧
    ProgressInfo.progress_percentage ⟨"a", .indexing, "s", 3, 4, 0, none⟩ * (4 : ℚ)
      = (3 : ℚ) * 100 ∧
    ProgressInfo.estimated_time_remaining ⟨"a", .indexing, "s", 0, 4, 0, none⟩ 7
      = .ok none := by
  refine ⟨?_, ?_, ?_⟩
  · exact (progress_percentage_safe ⟨"a", .scanning, "s", 5, 0, 0, none⟩ 0).1 rfl
  · exact (progress_percentage_safe ⟨"a", .indexing, "s", 3, 4, 0, none⟩ 0).2.1 (by decide)
  · exact (progress_percentage_safe ⟨"a", .indexing, "s", 0, 4, 0, none⟩ 7).2.2 rfl

/-! ## Snapshot data model (embeddings.py) -/

/-- One on-disk snapshot: the four parallel arrays of the npz archive.
Filenames are the canonical POSIX strings the code stores. -/
structure Snapshot where
  embeddings : List Emb
  filenames : List String
  modification_times : List ℚ
  metadata : List MetaBlob
deriving DecidableEq, Repr

/-- The alignment invariant: the four parallel arrays have equal length. -/
def Snapshot.aligned (s : Snapshot) : Prop :=
  s.embeddings.length = s.filenames.length ∧
  s.modification_times.length = s.filenames.length ∧
  s.metadata.length = s.filenames.length

instance (s : Snapshot) : Decidable s.aligned := by
  unfold Snapshot.aligned; infer_instance

/-- Result of an indexing batch (embeddings.py, IndexResult). -/
structure IndexResult where
  embeddings : List Emb
  filenames : List String
  modification_times : List ℚ
  metadata : List MetaBlob
  bad_files : List String
deriving DecidableEq, Repr

/-- The snapshot np.savez writes from an IndexResult (bad_files is not persisted). -/
def IndexResult.toSnapshot (r : IndexResult) : Snapshot :=
  ⟨r.embeddings, r.filenames, r.modification_times, r.metadata⟩

/-- View a snapshot's arrays as an IndexResult carrying the given failures. -/
def Snapshot.toResult (s : Snapshot) (bad : List String) : IndexResult :=
  ⟨s.embeddings, s.filenames, s.modification_times, s.metadata, bad⟩

/-- Outcome of _process_single_image for each path: the embedding, the file's
modification time and the extracted metadata on success, or failure.  The
model function is fixed while an operation runs (deterministic per run). -/
abbrev ClipModel := String → Option (Emb × ℚ × MetaBlob)

/-- Model of _process_images_batch: process the paths in order; a success appends the
embedding, the stored path string, the modification time and the metadata to
the four parallel lists; a failure appends the path to bad_files and
continues (a single bad file never aborts the batch). -/
def process_images_batch (model : ClipModel) : List String → IndexResult
  | [] => ⟨[], [], [], [], []⟩
  | p :: rest =>
    let r := process_images_batch model rest
    match model p with
    | some (e, t, m) =>
      ⟨e :: r.embeddings, p :: r.filenames, t :: r.modification_times,
        m :: r.metadata, r.bad_files⟩
    | none =>
      ⟨r.embeddings, r.filenames, r.modification_times, r.metadata,
        p :: r.bad_files⟩

/-- Set difference on path lists (Python set subtraction); dedup models the
set construction, list membership the containment test. -/
def pathSetDiff (xs ys : List String) : List String :=
  xs.dedup.filter (fun x => decide (x ∉ ys))

/-- Model of _get_new_and_missing_images: new = candidate set minus existing filename
set, missing = existing filename set minus candidate set. -/
def get_new_and_missing_images (cands : List String) (existing : List String) :
    List String × List String :=
  (pathSetDiff cands existing, pathSetDiff existing cands)

/-- numpy boolean-mask indexing arr[mask]. -/
def boolMask {α : Type} : List Bool → List α → List α
  | true :: bs, a :: rest => a :: boolMask bs rest
  | false :: bs, _ :: rest => boolMask bs rest
  | _, _ => []

/-- Model of _filter_missing_images: when missing paths exist, build one boolean mask
from the filenames (keep entries whose filename is not missing) and apply it
to all four parallel arrays; otherwise return the snapshot unchanged. -/
def filter_missing_images (missing : List String) (s : Snapshot) : Snapshot :=
  if missing = [] then s
  else
    let mask := s.filenames.map (fun f => decide (f ∉ missing))
    ⟨boolMask mask s.embeddings, boolMask mask s.filenames,
      boolMask mask s.modification_times, boolMask mask s.metadata⟩

/-- Model of _combine_index_results: concatenate the four parallel arrays pairwise and
both failure lists (the numpy empty-reshape branch only fixes the dtype and
shape of a zero-row matrix and is the identity at this level). -/
def combine_index_results (ex newR : IndexResult) : IndexResult :=
  ⟨ex.embeddings ++ newR.embeddings, ex.filenames ++ newR.filenames,
    ex.modification_times ++ newR.modification_times,
    ex.metadata ++ newR.metadata, ex.bad_files ++ newR.bad_files⟩

/-- update_index (embeddings.py): diff the candidate set against the existing
snapshot, drop missing entries from all four arrays, index only the new
paths, and persist; the value is the snapshot written by _save_embeddings
(every branch persists).  Python iterates the set of new paths in an
arbitrary order; this model fixes the deduplicated candidate order. -/
def update_index_saved (s : Snapshot) (cands : List String) (model : ClipModel) :
    Snapshot :=
  let nm := get_new_and_missing_images cands s.filenames
  let filtered := filter_missing_images nm.2 s
  if nm.1 = [] then filtered
  else
    let newResult := process_images_batch model nm.1
    if newResult.embeddings = [] then filtered
    else (combine_index_results (filtered.toResult []) newResult).toSnapshot

/-! ### Batch and filter lemmas -/

theorem process_images_batch_filenames (model : ClipModel) (ps : List String) :
    (process_images_batch model ps).filenames
      = ps.filter (fun p => (model p).isSome) := by
  induction ps with
  | nil => rfl
  | cons p rest ih =>
    simp only [process_images_batch]
    cases h : model p with
    | none => simpa [h] using ih
    | some v => simpa [h] using ih

theorem process_images_batch_emb_length (model : ClipModel) (ps : List String) :
    (process_images_batch model ps).embeddings.length
      = (process_images_batch model ps).filenames.length := by
  induction ps with
  | nil => rfl
  | cons p rest ih =>
    simp only [process_images_batch]
    cases h : model p <;> simp [ih]

theorem process_images_batch_emb_nil (model : ClipModel) (ps : List String) :
    (process_images_batch model ps).embeddings = [] ↔ ∀ p ∈ ps, model p = none := by
  rw [← List.length_eq_zero, process_images_batch_emb_length,
    List.length_eq_zero, process_images_batch_filenames, List.filter_eq_nil_iff]
  constructor
  · intro h p hp
    have := h p hp
    cases hm : model p
    · rfl
    · simp [hm] at this
  · intro h p hp
    simp [h p hp]

theorem boolMask_map_self {α : Type} (q : α → Bool) (l : List α) :
    boolMask (l.map q) l = l.filter q := by
  induction l with
  | nil => rfl
  | cons a rest ih =>
    cases h : q a <;> simp [boolMask, h, ih]

theorem filter_missing_images_filenames (missing : List String) (s : Snapshot) :
    (filter_missing_images missing s).filenames
      = s.filenames.filter (fun f => decide (f ∉ missing)) := by
  unfold filter_missing_images
  split
  · next h =>
    subst h
    simp
  · simp [boolMask_map_self]

/-! ### C5: incremental idempotence -/

theorem update_index_saved_filenames_subset (s : Snapshot) (cands : List String)
    (model : ClipModel) :
    ∀ f ∈ (update_index_saved s cands model).filenames, f ∈ cands := by
  intro f hf
  unfold update_index_saved get_new_and_missing_images at hf
  have hfilt : ∀ g ∈ (filter_missing_images (pathSetDiff s.filenames cands) s).filenames,
      g ∈ cands := by
    intro g hg
    rw [filter_missing_images_filenames] at hg
    have hmem := List.mem_filter.mp hg
    have hnotmiss : g ∉ pathSetDiff s.filenames cands := by
      simpa using hmem.2
    by_contra hgc
    exact hnotmiss (by
      unfold pathSetDiff
      exact List.mem_filter.mpr ⟨List.mem_dedup.mpr hmem.1, by simpa using hgc⟩)
  have hnew : ∀ g ∈ (process_images_batch model (pathSetDiff cands s.filenames)).filenames,
      g ∈ cands := by
    intro g hg
    rw [process_images_batch_filenames] at hg
    have := (List.mem_filter.mp hg).1
    unfold pathSetDiff at this
    exact List.mem_dedup.mp (List.mem_filter.mp this).1
  simp only at hf
  split at hf
  · exact hfilt f hf
  · split at hf
    · exact hfilt f hf
    · simp only [combine_index_results, IndexResult.toSnapshot, Snapshot.toResult,
        List.mem_append] at hf
      rcases hf with hf | hf
      · exact hfilt f hf
      · exact hnew f hf

/-- C5: calling update_index twice in a row against the same snapshot with the
same unchanged candidate file set (and the same per-image indexing outcomes)
persists the same snapshot contents both times: no entry is duplicated,
none is dropped, and no array drifts between the two calls. -/
theorem update_index_idempotent (s : Snapshot) (cands : List String)
    (model : ClipModel) :
    update_index_saved (update_index_saved s cands model) cands model
      = update_index_saved s cands model := by
  set s₁ := update_index_saved s cands model with hs₁
  have hsub : ∀ f ∈ s₁.filenames, f ∈ cands :=
    update_index_saved_filenames_subset s cands model
  have hmiss : pathSetDiff s₁.filenames cands = [] := by
    unfold pathSetDiff
    rw [List.filter_eq_nil_iff]
    intro x hx
    simp only [decide_eq_true_eq, Decidable.not_not]
    exact hsub x (List.mem_dedup.mp hx)
  have hfail : ∀ p ∈ pathSetDiff cands s₁.filenames, model p = none := by
    intro p hp
    unfold pathSetDiff at hp
    have hpc : p ∈ cands := List.mem_dedup.mp (List.mem_filter.mp hp).1
    have hpn : p ∉ s₁.filenames := by
      have := (List.mem_filter.mp hp).2
      simpa using this
    by_cases hpo : p ∈ s.filenames
    · exfalso
      apply hpn
      have hpf : p ∈ (filter_missing_images (pathSetDiff s.filenames cands) s).filenames := by
        rw [filter_missing_images_filenames]
        refine List.mem_filter.mpr ⟨hpo, ?_⟩
        simp only [decide_eq_true_eq]
        intro hmem
        exact (by simpa using (List.mem_filter.mp hmem).2 : p ∉ cands) hpc
      rw [hs₁]
      unfold update_index_saved get_new_and_missing_images
      simp only
      split
      · exact hpf
      · split
        · exact hpf
        · simp only [combine_index_results, IndexResult.toSnapshot, Snapshot.toResult,
            List.mem_append]
          exact Or.inl hpf
    · have hpnew : p ∈ pathSetDiff cands s.filenames := by
        unfold pathSetDiff
        exact List.mem_filter.mpr ⟨List.mem_dedup.mpr hpc, by simpa using hpo⟩
      by_cases hne : pathSetDiff cands s.filenames = []
      · rw [hne] at hpnew
        exact absurd hpnew (List.not_mem_nil p)
      · by_cases hemb : (process_images_batch model (pathSetDiff cands s.filenames)).embeddings = []
        · exact (process_images_batch_emb_nil model _).mp hemb p hpnew
        · cases hmp : model p with
          | none => rfl
          | some v =>
            exfalso
            apply hpn
            have hpf : p ∈ (process_images_batch model (pathSetDiff cands s.filenames)).filenames := by
              rw [process_images_batch_filenames]
              exact List.mem_filter.mpr ⟨hpnew, by simp [hmp]⟩
            rw [hs₁]
            unfold update_index_saved get_new_and_missing_images
            simp only
            rw [if_neg hne, if_neg hemb]
            simp only [combine_index_results, IndexResult.toSnapshot, Snapshot.toResult,
              List.mem_append]
            exact Or.inr hpf
  have hfilt₁ : filter_missing_images (pathSetDiff s₁.filenames cands) s₁ = s₁ := by
    rw [hmiss]
    unfold filter_missing_images
    simp
  unfold update_index_saved get_new_and_missing_images
  simp only
  rw [hfilt₁]
  by_cases hne : pathSetDiff cands s₁.filenames = []
  · rw [if_pos hne]
  · rw [if_neg hne, if_pos ((process_images_batch_emb_nil model _).mpr hfail)]

/-! ## Legacy duplicate of the update engine (src/backend/embeddings.py) -/

/-- An npz archive as the legacy update_index saves it: its no-new-images
branches write only the embeddings and filenames arrays, so the other two
columns are optional. -/
structure LegacyNpz where
  embeddings : List Emb
  filenames : List String
  modification_times : Option (List ℚ)
  metadata : Option (List MetaBlob)
deriving DecidableEq, Repr

/-- Legacy Embeddings.update_index (src/backend/embeddings.py): when missing
images exist it rebuilds existing_embeddings (zip comprehension) and
existing_filenames (list comprehension) only, leaving existing_modtimes and
existing_metadatas untouched, and then concatenates each pair of columns
before saving; its no-new-images branches save only two of the four arrays. -/
def legacy_update_index_saved (s : Snapshot) (cands : List String)
    (model : ClipModel) : LegacyNpz :=
  let newPaths := pathSetDiff cands s.filenames
  let missingPaths := pathSetDiff s.filenames cands
  let fEmb := if missingPaths = [] then s.embeddings else
    ((s.embeddings.zip s.filenames).filter
      (fun et => decide (et.2 ∉ missingPaths))).map (fun et => et.1)
  let fNames := if missingPaths = [] then s.filenames else
    s.filenames.filter (fun f => decide (f ∉ missingPaths))
  if newPaths = [] then ⟨fEmb, fNames, none, none⟩
  else
    let newResult := process_images_batch model newPaths
    if newResult.embeddings = [] then ⟨fEmb, fNames, none, none⟩
    else
      ⟨fEmb ++ newResult.embeddings, fNames ++ newResult.filenames,
        some (s.modification_times ++ newResult.modification_times),
        some (s.metadata ++ newResult.metadata)⟩

/-- C2 evaluated at the failing input: a snapshot holding images a and b, with
a now missing and a new image c indexing successfully.  The legacy
update_index persists filenames of length 2 next to modification_times and
metadata of length 3: the four parallel arrays are no longer aligned. -/
theorem legacy_update_index_misaligns :
    legacy_update_index_saved
        ⟨[[1], [2]], ["/pics/a.jpg", "/pics/b.jpg"], [10, 20], ["ma", "mb"]⟩
        ["/pics/b.jpg", "/pics/c.jpg"]
        (fun p => if p = "/pics/c.jpg" then some ([3], 30, "mc") else none)
      = ⟨[[2], [3]], ["/pics/b.jpg", "/pics/c.jpg"],
          some [10, 20, 30], some ["ma", "mb", "mc"]⟩ ∧
    ¬ ((["/pics/b.jpg", "/pics/c.jpg"] : List String).length
        = ([10, 20, 30] : List ℚ).length) := by
  constructor
  · rfl
  · decide

/-! ### Alignment preservation in the current engine (supporting lemmas) -/

theorem boolMask_nil {α : Type} (mask : List Bool) :
    boolMask mask ([] : List α) = [] := by
  cases mask with
  | nil => rfl
  | cons b bs => cases b <;> rfl

theorem boolMask_length_congr {α β : Type} (mask : List Bool) :
    ∀ (l₁ : List α) (l₂ : List β), l₁.length = l₂.length →
      (boolMask mask l₁).length = (boolMask mask l₂).length := by
  induction mask with
  | nil => intro l₁ l₂ _; cases l₁ <;> cases l₂ <;> rfl
  | cons b bs ih =>
    intro l₁ l₂ h
    cases l₁ with
    | nil => cases l₂ with
      | nil => rw [boolMask_nil, boolMask_nil]; rfl
      | cons y ys => simp at h
    | cons x xs => cases l₂ with
      | nil => simp at h
      | cons y ys =>
        simp only [List.length_cons, Nat.succ_inj] at h
        cases b <;> simp [boolMask, ih xs ys h]

theorem process_images_batch_aligned (model : ClipModel) (ps : List String) :
    (process_images_batch model ps).toSnapshot.aligned := by
  induction ps with
  | nil => exact ⟨rfl, rfl, rfl⟩
  | cons p rest ih =>
    obtain ⟨h1, h2, h3⟩ := ih
    simp only [IndexResult.toSnapshot, Snapshot.aligned] at h1 h2 h3
    simp only [process_images_batch]
    cases h : model p with
    | none => exact ⟨h1, h2, h3⟩
    | some v =>
      refine ⟨?_, ?_, ?_⟩ <;>
        simp [IndexResult.toSnapshot, Snapshot.aligned, h1, h2, h3]

theorem filter_missing_images_aligned (missing : List String) (s : Snapshot)
    (h : s.aligned) : (filter_missing_images missing s).aligned := by
  obtain ⟨h1, h2, h3⟩ := h
  unfold filter_missing_images
  split
  · exact ⟨h1, h2, h3⟩
  · exact ⟨boolMask_length_congr _ _ _ h1, boolMask_length_congr _ _ _ h2,
      boolMask_length_congr _ _ _ h3⟩

theorem update_index_saved_aligned (s : Snapshot) (cands : List String)
    (model : ClipModel) (h : s.aligned) : (update_index_saved s cands model).aligned := by
  unfold update_index_saved
  dsimp only
  have hf := filter_missing_images_aligned
    (get_new_and_missing_images cands s.filenames).2 s h
  have hb := process_images_batch_aligned model
    (get_new_and_missing_images cands s.filenames).1
  split
  · exact hf
  · split
    · exact hf
    · obtain ⟨f1, f2, f3⟩ := hf
      obtain ⟨b1, b2, b3⟩ := hb
      refine ⟨?_, ?_, ?_⟩ <;>
        simp_all [combine_index_results, IndexResult.toSnapshot, Snapshot.toResult,
          Snapshot.aligned]

/-! ## Cached index structure (open_cached_embeddings) and world state -/

instance argsortRelDec (keys : List ℚ) :
    DecidableRel (fun i j : Nat => keys.getD i 0 ≤ keys.getD j 0) :=
  fun i j => inferInstanceAs (Decidable (keys.getD i 0 ≤ keys.getD j 0))

/-- np.argsort over the modification times: a permutation of the positions
whose keyed values ascend.  numpy's default kind leaves the relative order of
equal keys unspecified; this executable model fixes one admissible outcome
(the stable one).  The documented numpy contract itself is
npArgsortAdmissible below. -/
def argsort (keys : List ℚ) : List Nat :=
  List.insertionSort (fun i j => keys.getD i 0 ≤ keys.getD j 0)
    (List.range keys.length)

/-- The set of outputs numpy's argsort is documented to allow: a permutation
of the positions mapping to an ascending sequence of keys.  The default sort
kind (quicksort/introsort) promises nothing further about equal keys. -/
def npArgsortAdmissible (keys : List ℚ) (p : List Nat) : Prop :=
  p.Perm (List.range keys.length) ∧
  (p.map (fun i => keys.getD i 0)).Pairwise (· ≤ ·)

instance (keys : List ℚ) (p : List Nat) : Decidable (npArgsortAdmissible keys p) := by
  unfold npArgsortAdmissible
  infer_instance

/-- The dict comprehension building the filename -> sorted-position map:
later duplicate keys overwrite earlier ones, so lookup yields the last
matching position. -/
def dictOfKeys (l : List String) : String → Option Nat :=
  fun f => ((List.range l.length).filter (fun i => decide (l.getD i "" = f))).getLast?

/-- The dictionary open_cached_embeddings returns: the raw arrays in storage
order, the modification-time-sorted filename and metadata views, and the
filename -> sorted-position map. -/
structure IndexView where
  filenames : List String
  metadata : List MetaBlob
  embeddings : List Emb
  modification_times : List ℚ
  sorted_filenames : List String
  sorted_metadata : List MetaBlob
  filename_map : String → Option Nat

/-- The pure computation of open_cached_embeddings on the loaded arrays. -/
def buildView (s : Snapshot) : IndexView :=
  let sortedIdx := argsort s.modification_times
  let sf := sortedIdx.map (fun i => s.filenames.getD i "")
  ⟨s.filenames, s.metadata, s.embeddings, s.modification_times,
    sf, sortedIdx.map (fun i => s.metadata.getD i ""), dictOfKeys sf⟩

/-- Process-wide state: the snapshot files on disk, and the lru_cache memo of
open_cached_embeddings (most recently used first, capacity 3). -/
structure World where
  disk : String → Option Snapshot
  cache : List (String × IndexView)

/-- Lookup in the memo table. -/
def cacheLookup (c : List (String × IndexView)) (p : String) : Option IndexView :=
  (c.find? (fun e => e.1 == p)).map (fun e => e.2)

/-- open_cached_embeddings through the lru_cache: a hit returns the memoized
view without consulting the disk and marks it most recent; a miss raises
FileNotFoundError when the file does not exist, otherwise loads the file,
builds the view, memoizes it and evicts beyond capacity 3. -/
def open_cached_embeddings (w : World) (p : String) :
    Except PyErr (IndexView × World) :=
  match cacheLookup w.cache p with
  | some v => .ok (v, ⟨w.disk, (p, v) :: w.cache.filter (fun e => !(e.1 == p))⟩)
  | none =>
    match w.disk p with
    | none => .error .fileNotFound
    | some s =>
      let v := buildView s
      .ok (v, ⟨w.disk, ((p, v) :: w.cache).take 3⟩)

/-- Model of _save_embeddings: np.savez overwrites the file at the path with the four
arrays of the result, then open_cached_embeddings.cache_clear() empties the
whole memo before returning. -/
def save_embeddings (w : World) (p : String) (r : IndexResult) : World :=
  ⟨fun q => if q = p then some r.toSnapshot else w.disk q, []⟩

/-- remove_image_from_embeddings: read through the cache, raise ValueError if
the filepath is absent (the read may have populated the cache), otherwise
np.delete the first matching position from all four raw arrays, overwrite
the file and clear the lru_cache. -/
def remove_image_from_embeddings (w : World) (p : String) (img : String) :
    Except PyErr Unit × World :=
  match open_cached_embeddings w p with
  | .error e => (.error e, w)
  | .ok (v, w₁) =>
    if img ∈ v.filenames then
      let idx := v.filenames.indexOf img
      let s : Snapshot :=
        ⟨v.embeddings.eraseIdx idx, v.filenames.eraseIdx idx,
          v.modification_times.eraseIdx idx, v.metadata.eraseIdx idx⟩
      (.ok (), ⟨fun q => if q = p then some s else w₁.disk q, []⟩)
    else (.error .valueNotFound, w₁)

/-- The mutating operations on a snapshot path: _save_embeddings (the single
persistence exit of create_index and update_index, sync and async) and
remove_image_from_embeddings. -/
inductive MutOp where
  | save (r : IndexResult)
  | removeImage (img : String)

/-- Run one mutating operation against the world. -/
def applyMut (w : World) (p : String) : MutOp → Except PyErr Unit × World
  | .save r => (.ok (), save_embeddings w p r)
  | .removeImage img => remove_image_from_embeddings w p img

/-- C1: every mutating operation that returns successfully leaves the memo
empty (cache_clear runs before the operation returns), so any subsequent
read through the cache — similarity search, sequential or point retrieval,
iteration, all of which call open_cached_embeddings — rebuilds its view from
the snapshot bytes now on disk: no read can observe data predating the
mutation. -/
theorem mutation_evicts_cache (w : World) (p : String) (op : MutOp)
    (hok : (applyMut w p op).1 = .ok ()) :
    (applyMut w p op).2.cache = [] ∧
    ∀ q s, (applyMut w p op).2.disk q = some s →
      open_cached_embeddings (applyMut w p op).2 q
        = .ok (buildView s, ⟨(applyMut w p op).2.disk, [(q, buildView s)]⟩) := by
  cases op with
  | save r =>
    refine ⟨rfl, ?_⟩
    intro q s h
    simp only [applyMut, save_embeddings] at h ⊢
    simp [open_cached_embeddings, cacheLookup, h]
  | removeImage img =>
    simp only [applyMut, remove_image_from_embeddings] at hok ⊢
    cases hopen : open_cached_embeddings w p with
    | error e =>
      rw [hopen] at hok
      exact absurd hok (by simp)
    | ok pr =>
      obtain ⟨v, w₁⟩ := pr
      rw [hopen] at hok
      dsimp only at hok ⊢
      by_cases hc : img ∈ v.filenames
      · simp only [hc, if_true] at hok ⊢
        refine ⟨?_, ?_⟩
        · trivial
        · intro q s h
          dsimp only [open_cached_embeddings, cacheLookup, List.find?, Option.map]
          rw [h]
          rfl
      · simp [hc] at hok

/-- Witness for C1: in an initially empty world, saving a one-image index at
a concrete path succeeds, and the theorem applies to it. -/
theorem mutation_evicts_cache_witness :
    ((applyMut ⟨fun _ => none, []⟩ "/idx.npz"
        (.save ⟨[[1]], ["/pics/a.jpg"], [5], ["m"], []⟩)).1 = .ok ()) ∧
    (applyMut ⟨fun _ => none, []⟩ "/idx.npz"
        (.save ⟨[[1]], ["/pics/a.jpg"], [5], ["m"], []⟩)).2.cache = [] :=
  ⟨rfl, (mutation_evicts_cache ⟨fun _ => none, []⟩ "/idx.npz"
      (.save ⟨[[1]], ["/pics/a.jpg"], [5], ["m"], []⟩) rfl).1⟩

/-! ## Sorted-view lemmas -/

theorem argsort_length (keys : List ℚ) : (argsort keys).length = keys.length := by
  unfold argsort
  rw [List.length_insertionSort, List.length_range]

theorem argsort_perm (keys : List ℚ) : (argsort keys).Perm (List.range keys.length) :=
  List.perm_insertionSort _ _

theorem argsort_sorted (keys : List ℚ) :
    (argsort keys).Sorted (fun i j => keys.getD i 0 ≤ keys.getD j 0) := by
  haveI : IsTotal Nat (fun i j => keys.getD i 0 ≤ keys.getD j 0) :=
    ⟨fun i j => le_total _ _⟩
  haveI : IsTrans Nat (fun i j => keys.getD i 0 ≤ keys.getD j 0) :=
    ⟨fun a b c hab hbc => le_trans hab hbc⟩
  exact List.sorted_insertionSort _ _

/-- The executable argsort realizes the documented numpy contract. -/
theorem argsort_admissible (keys : List ℚ) :
    npArgsortAdmissible keys (argsort keys) :=
  ⟨argsort_perm keys, List.pairwise_map.mpr (argsort_sorted keys)⟩

theorem getD_range_map {α : Type} (l : List α) (d : α) :
    (List.range l.length).map (fun i => l.getD i d) = l := by
  induction l with
  | nil => rfl
  | cons a t ih =>
    rw [List.length_cons, List.range_succ_eq_map, List.map_cons, List.map_map]
    congr 1

theorem range_filter_single (i : Nat) (p : Nat → Bool) :
    ∀ n, i < n → (∀ j, j < n → (p j = true ↔ j = i)) →
      (List.range n).filter p = [i] := by
  intro n
  induction n with
  | zero => intro h _; omega
  | succ n ih =>
    intro hi hp
    rw [List.range_succ, List.filter_append]
    by_cases hin : i = n
    · subst hin
      have h1 : (List.range i).filter p = [] := by
        rw [List.filter_eq_nil_iff]
        intro j hj hpj
        have hj' := List.mem_range.mp hj
        have := (hp j (by omega)).mp hpj
        omega
      have h2 : List.filter p [i] = [i] := by
        have hpi := (hp i hi).mpr rfl
        simp [List.filter_cons, hpi]
      rw [h1, h2]
      rfl
    · have h1 : (List.range n).filter p = [i] :=
        ih (by omega) (fun j hj => hp j (by omega))
      have h2 : List.filter p [n] = [] := by
        have hpn : ¬ p n = true := fun hpn => hin ((hp n (by omega)).mp hpn).symm
        simp [List.filter_cons, hpn]
      rw [h1, h2, List.append_nil]

theorem dictOfKeys_getD (l : List String) (hnd : l.Nodup) (i : Nat)
    (hi : i < l.length) : dictOfKeys l (l.getD i "") = some i := by
  unfold dictOfKeys
  have heq : (List.range l.length).filter
      (fun j => decide (l.getD j "" = l.getD i "")) = [i] := by
    apply range_filter_single i _ l.length hi
    intro j hj
    simp only [decide_eq_true_eq]
    constructor
    · intro h
      rw [List.getD_eq_getElem l "" hj, List.getD_eq_getElem l "" hi] at h
      exact hnd.getElem_inj_iff.mp h
    · intro h
      subst h
      rfl
  rw [heq]
  rfl

theorem dictOfKeys_eq_none (l : List String) (f : String) (hf : f ∉ l) :
    dictOfKeys l f = none := by
  unfold dictOfKeys
  have heq : (List.range l.length).filter (fun i => decide (l.getD i "" = f)) = [] := by
    rw [List.filter_eq_nil_iff]
    intro j hj
    have hjl := List.mem_range.mp hj
    simp only [decide_eq_true_eq]
    intro h
    apply hf
    rw [← h, List.getD_eq_getElem l "" hjl]
    exact List.getElem_mem hjl
  rw [heq]
  rfl

theorem buildView_sorted_filenames_length (s : Snapshot) :
    (buildView s).sorted_filenames.length = s.modification_times.length := by
  unfold buildView
  dsimp only
  rw [List.length_map, argsort_length]

theorem buildView_sorted_filenames_perm (s : Snapshot)
    (hlen : s.modification_times.length = s.filenames.length) :
    (buildView s).sorted_filenames.Perm s.filenames := by
  unfold buildView
  dsimp only
  have h1 := (argsort_perm s.modification_times).map (fun i => s.filenames.getD i "")
  rw [hlen, getD_range_map] at h1
  exact h1

/-! ## Sequential, point and random retrieval (embeddings.py) -/

/-- retrieve_next_image in sequential mode: with no current image, return the
first record of the sorted view (IndexError on an empty index); otherwise
look the current filename up in the dictionary (ValueError when absent) and
return the following sorted position, wrapping modulo the length. -/
def retrieve_next_image (v : IndexView) (current : Option String) :
    Except PyErr String :=
  match current with
  | none =>
    match v.sorted_filenames with
    | [] => .error .indexError
    | f :: _ => .ok f
  | some c =>
    match v.filename_map c with
    | none => .error .valueNotFound
    | some i =>
      .ok (v.sorted_filenames.getD ((i + 1) % v.sorted_filenames.length) "")

/-- retrieve_image once the view is open: O(1) dictionary lookup of the
filepath; ValueError when it is absent. -/
def retrieve_image_view (v : IndexView) (img : String) :
    Except PyErr (String × MetaBlob) :=
  match v.filename_map img with
  | none => .error .valueNotFound
  | some i => .ok (v.sorted_filenames.getD i "", v.sorted_metadata.getD i "")

/-- World-level retrieve_image: open through the cache, then look up. -/
def retrieve_image (w : World) (p : String) (img : String) :
    Except PyErr (String × MetaBlob) :=
  match open_cached_embeddings w p with
  | .error e => .error e
  | .ok (v, _) => retrieve_image_view v img

/-- World-level retrieve_next_image in sequential mode. -/
def retrieve_next (w : World) (p : String) (current : Option String) :
    Except PyErr String :=
  match open_cached_embeddings w p with
  | .error e => .error e
  | .ok (v, _) => retrieve_next_image v current

/-- Iterated sequential retrieval: nextSeq v 0 is the first call (current =
None); nextSeq v (k+1) feeds the previous result back as current. -/
def nextSeq (v : IndexView) : Nat → Except PyErr String
  | 0 => retrieve_next_image v none
  | k + 1 =>
    match nextSeq v k with
    | .ok f => retrieve_next_image v (some f)
    | .error e => .error e

theorem buildView_next_at (s : Snapshot) (hal : s.aligned)
    (hnd : s.filenames.Nodup) (i : Nat)
    (hi : i < (buildView s).sorted_filenames.length) :
    retrieve_next_image (buildView s)
        (some ((buildView s).sorted_filenames.getD i ""))
      = .ok ((buildView s).sorted_filenames.getD
          ((i + 1) % (buildView s).sorted_filenames.length) "") := by
  have hsnd : (buildView s).sorted_filenames.Nodup :=
    (buildView_sorted_filenames_perm s hal.2.1).nodup_iff.mpr hnd
  have hmap : (buildView s).filename_map = dictOfKeys (buildView s).sorted_filenames :=
    rfl
  simp only [retrieve_next_image, hmap, dictOfKeys_getD _ hsnd i hi]

theorem nextSeq_formula (s : Snapshot) (hal : s.aligned)
    (hnd : s.filenames.Nodup) (hN : 1 ≤ s.filenames.length) :
    ∀ k, nextSeq (buildView s) k
      = .ok ((buildView s).sorted_filenames.getD
          (k % (buildView s).sorted_filenames.length) "") := by
  have hlen : (buildView s).sorted_filenames.length = s.filenames.length := by
    rw [buildView_sorted_filenames_length, hal.2.1]
  have hpos : 0 < (buildView s).sorted_filenames.length := by omega
  intro k
  induction k with
  | zero =>
    show retrieve_next_image (buildView s) none = _
    rw [Nat.zero_mod]
    cases hsf : (buildView s).sorted_filenames with
    | nil => rw [hsf] at hpos; simp at hpos
    | cons f rest => simp [retrieve_next_image, hsf]
  | succ k ih =>
    show (match nextSeq (buildView s) k with
      | .ok f => retrieve_next_image (buildView s) (some f)
      | .error e => .error e) = _
    rw [ih]
    dsimp only
    rw [buildView_next_at s hal hnd _ (Nat.mod_lt _ hpos)]
    congr 1
    have h1 : k % (buildView s).sorted_filenames.length %
        (buildView s).sorted_filenames.length
        = k % (buildView s).sorted_filenames.length :=
      Nat.mod_mod_of_dvd k (dvd_refl _)
    conv_lhs => rw [Nat.add_mod]
    conv_rhs => rw [Nat.add_mod]
    rw [h1]

/-- C4: on an index of N >= 1 images, retrieve_next_image with current = None
returns the first record in modification-time-sorted order; starting there,
N further calls, each feeding the previous result back, return exactly the
rotation by one of the sorted view — a permutation of all N filepaths, each
exactly once — and the N-th call has wrapped around to the first image. -/
theorem sequential_wraparound (s : Snapshot) (hal : s.aligned)
    (hnd : s.filenames.Nodup) (hN : 1 ≤ s.filenames.length) :
    nextSeq (buildView s) 0 = .ok ((buildView s).sorted_filenames.getD 0 "") ∧
    (List.range s.filenames.length).map (fun k => nextSeq (buildView s) (k + 1))
      = ((buildView s).sorted_filenames.rotate 1).map Except.ok ∧
    ((buildView s).sorted_filenames.rotate 1).Perm s.filenames ∧
    nextSeq (buildView s) s.filenames.length = nextSeq (buildView s) 0 ∧
    ((argsort s.modification_times).map
        (fun i => s.modification_times.getD i 0)).Pairwise (· ≤ ·) := by
  have hlen : (buildView s).sorted_filenames.length = s.filenames.length := by
    rw [buildView_sorted_filenames_length, hal.2.1]
  have hpos : 0 < (buildView s).sorted_filenames.length := by omega
  have hf := nextSeq_formula s hal hnd hN
  refine ⟨?_, ?_, ?_, ?_, ?_⟩
  · rw [hf 0, Nat.zero_mod]
  · apply List.ext_getElem
    · simp [hlen]
    · intro k h1 h2
      rw [List.getElem_map, List.getElem_map, List.getElem_range, hf (k + 1),
        List.getElem_rotate]
      congr 1
      rw [List.getD_eq_getElem _ "" (Nat.mod_lt _ hpos)]
  · exact (List.rotate_perm _ 1).trans (buildView_sorted_filenames_perm s hal.2.1)
  · rw [hf s.filenames.length, hf 0]
    congr 1
    rw [← hlen, Nat.mod_self, Nat.zero_mod]
  · exact (argsort_admissible s.modification_times).2

/-- Witness for C4 on a concrete three-image index (modification times out of
storage order): the third next-call has wrapped around to the first call. -/
theorem sequential_wraparound_witness :
    (⟨[[1], [2], [3]], ["/a.jpg", "/b.jpg", "/c.jpg"], [30, 10, 20],
        ["x", "y", "z"]⟩ : Snapshot).aligned ∧
    nextSeq (buildView ⟨[[1], [2], [3]], ["/a.jpg", "/b.jpg", "/c.jpg"],
        [30, 10, 20], ["x", "y", "z"]⟩) 3
      = nextSeq (buildView ⟨[[1], [2], [3]], ["/a.jpg", "/b.jpg", "/c.jpg"],
        [30, 10, 20], ["x", "y", "z"]⟩) 0 := by
  refine ⟨by decide, ?_⟩
  exact (sequential_wraparound
    ⟨[[1], [2], [3]], ["/a.jpg", "/b.jpg", "/c.jpg"], [30, 10, 20], ["x", "y", "z"]⟩
    (by decide) (by decide) (by decide)).2.2.2.1

/-- C7: a snapshot path that does not exist on disk raises FileNotFoundError
from open_cached_embeddings (on a cache miss), and a filepath absent from the
index makes point retrieval and sequential retrieval with it as current fail
with ValueError — never a silently substituted record. -/
theorem notfound_errors (w w' : World) (p : String) (s : Snapshot) (img : String)
    (h1 : cacheLookup w.cache p = none) (h2 : w.disk p = none)
    (h3 : s.aligned) (h4 : img ∉ s.filenames)
    (h5 : cacheLookup w'.cache p = none) (h6 : w'.disk p = some s) :
    open_cached_embeddings w p = .error .fileNotFound ∧
    retrieve_image w' p img = .error .valueNotFound ∧
    retrieve_next w' p (some img) = .error .valueNotFound := by
  have hsorted : img ∉ (buildView s).sorted_filenames := fun hm =>
    h4 ((buildView_sorted_filenames_perm s h3.2.1).subset hm)
  have hmapn : (buildView s).filename_map img = none :=
    dictOfKeys_eq_none _ _ hsorted
  refine ⟨?_, ?_, ?_⟩
  · simp [open_cached_embeddings, h1, h2]
  · simp [retrieve_image, open_cached_embeddings, h5, h6,
      retrieve_image_view, hmapn]
  · simp [retrieve_next, open_cached_embeddings, h5, h6,
      retrieve_next_image, hmapn]

/-- Witness for C7: missing file and missing filepath on concrete inputs. -/
theorem notfound_errors_witness :
    open_cached_embeddings ⟨fun _ => none, []⟩ "/idx.npz" = .error .fileNotFound ∧
    retrieve_image
        ⟨fun q => if q = "/idx.npz" then some ⟨[[1]], ["/a.jpg"], [1], ["m"]⟩ else none, []⟩
        "/idx.npz" "/zz.jpg"
      = .error .valueNotFound := by
  constructor
  · exact (notfound_errors ⟨fun _ => none, []⟩
      ⟨fun q => if q = "/idx.npz" then some ⟨[[1]], ["/a.jpg"], [1], ["m"]⟩ else none, []⟩
      "/idx.npz" ⟨[[1]], ["/a.jpg"], [1], ["m"]⟩ "/zz.jpg"
      rfl rfl (by decide) (by decide) rfl rfl).1
  · exact (notfound_errors ⟨fun _ => none, []⟩
      ⟨fun q => if q = "/idx.npz" then some ⟨[[1]], ["/a.jpg"], [1], ["m"]⟩ else none, []⟩
      "/idx.npz" ⟨[[1]], ["/a.jpg"], [1], ["m"]⟩ "/zz.jpg"
      rfl rfl (by decide) (by decide) rfl rfl).2.1

/-! ## C8: tie order of the modification-time sort -/

/-- C8 counterexample: on a snapshot whose two records share the modification
time 5, the output [1, 0] is admissible for np.argsort (it is a permutation
with ascending keys), yet it places position 1 before position 0: the
documented contract of the default sort kind does not preserve insertion
order on ties, so the claimed stability is not guaranteed by the code. -/
theorem argsort_stability_counterexample :
    npArgsortAdmissible
        (⟨[[1], [2]], ["/a.jpg", "/b.jpg"], [5, 5], ["x", "y"]⟩ : Snapshot).modification_times
        [1, 0] ∧
    ¬ ([1, 0] : List Nat).Pairwise (fun a b =>
        (⟨[[1], [2]], ["/a.jpg", "/b.jpg"], [5, 5], ["x", "y"]⟩ : Snapshot).modification_times.getD a 0
          = (⟨[[1], [2]], ["/a.jpg", "/b.jpg"], [5, 5], ["x", "y"]⟩ : Snapshot).modification_times.getD b 0
        → a < b) := by
  constructor
  · exact ⟨by decide, by decide⟩
  · decide

/-- Sorted permutations agreeing on an antisymmetric-on-members relation are
equal. -/
theorem pairwise_perm_eq {α : Type} (R : α → α → Prop) :
    ∀ {l₁ l₂ : List α}, l₁.Perm l₂ → l₁.Pairwise R → l₂.Pairwise R →
      (∀ a ∈ l₁, ∀ b ∈ l₁, R a b → R b a → a = b) → l₁ = l₂ := by
  intro l₁
  induction l₁ with
  | nil =>
    intro l₂ hp _ _ _
    exact hp.nil_eq
  | cons a t ih =>
    intro l₂ hp h1 h2 hanti
    cases l₂ with
    | nil => exact absurd hp.eq_nil (by simp)
    | cons b u =>
      have hab : a = b := by
        by_cases h : a = b
        · exact h
        · have hbmem : b ∈ a :: t := hp.mem_iff.mpr (List.mem_cons_self b u)
          have hamem : a ∈ b :: u := hp.mem_iff.mp (List.mem_cons_self a t)
          have hb' : b ∈ t := by
            rcases List.mem_cons.mp hbmem with h' | h'
            · exact absurd h'.symm h
            · exact h'
          have ha' : a ∈ u := by
            rcases List.mem_cons.mp hamem with h' | h'
            · exact absurd h' h
            · exact h'
          have hRab : R a b := (List.pairwise_cons.mp h1).1 b hb'
          have hRba : R b a := (List.pairwise_cons.mp h2).1 a ha'
          exact hanti a (List.mem_cons_self a t) b (List.mem_cons_of_mem a hb')
            hRab hRba
      subst hab
      have htu : t.Perm u := hp.cons_inv
      have hrec := ih htu (List.pairwise_cons.mp h1).2 (List.pairwise_cons.mp h2).2
        (fun x hx y hy hxy hyx =>
          hanti x (List.mem_cons_of_mem a hx) y (List.mem_cons_of_mem a hy) hxy hyx)
      rw [hrec]

/-- With pairwise-distinct keys, the admissible argsort output is unique. -/
theorem npArgsortAdmissible_unique (keys : List ℚ) (hnd : keys.Nodup)
    {p q : List Nat} (hp : npArgsortAdmissible keys p)
    (hq : npArgsortAdmissible keys q) : p = q := by
  have hperm : p.Perm q := hp.1.trans hq.1.symm
  have hp' : p.Pairwise (fun i j => keys.getD i 0 ≤ keys.getD j 0) :=
    List.pairwise_map.mp hp.2
  have hq' : q.Pairwise (fun i j => keys.getD i 0 ≤ keys.getD j 0) :=
    List.pairwise_map.mp hq.2
  apply pairwise_perm_eq _ hperm hp' hq'
  intro a ha b hb hab hba
  have ha' : a < keys.length := List.mem_range.mp (hp.1.subset ha)
  have hb' : b < keys.length := List.mem_range.mp (hp.1.subset hb)
  have hk : keys.getD a 0 = keys.getD b 0 := le_antisymm hab hba
  rw [List.getD_eq_getElem keys 0 ha', List.getD_eq_getElem keys 0 hb'] at hk
  exact hnd.getElem_inj_iff.mp hk

/-- C8 amended: the sorted view of a snapshot realizes the documented
np.argsort contract (ascending modification times on a permutation of the
positions); when the modification times are pairwise distinct, every
admissible output coincides, so the sequential next-image order is
deterministic.  For equal modification times, numpy's default sort kind
promises no particular tie order. -/
theorem sorted_view_deterministic (s : Snapshot) (p q : List Nat)
    (hnd : s.modification_times.Nodup)
    (hp : npArgsortAdmissible s.modification_times p)
    (hq : npArgsortAdmissible s.modification_times q) :
    npArgsortAdmissible s.modification_times (argsort s.modification_times) ∧
    p = q :=
  ⟨argsort_admissible _, npArgsortAdmissible_unique _ hnd hp hq⟩

/-- Witness for C8 amended on concrete distinct modification times. -/
theorem sorted_view_deterministic_witness :
    npArgsortAdmissible
        (⟨[[1], [2]], ["/a.jpg", "/b.jpg"], [10, 20], ["x", "y"]⟩ : Snapshot).modification_times
        (argsort (⟨[[1], [2]], ["/a.jpg", "/b.jpg"], [10, 20], ["x", "y"]⟩ : Snapshot).modification_times) ∧
    ([0, 1] : List Nat) = [0, 1] :=
  sorted_view_deterministic
    ⟨[[1], [2]], ["/a.jpg", "/b.jpg"], [10, 20], ["x", "y"]⟩ [0, 1] [0, 1]
    (by decide) (by decide) (by decide)

/-! ## Similarity search (search_images_by_similarity / search_images_by_text) -/

/-- Python slice arr[-top_k:]: for top_k = 0 this is arr[-0:] = arr[0:], the
whole array; otherwise the last top_k elements. -/
def pySliceLast {α : Type} (k : Nat) (l : List α) : List α :=
  if k = 0 then l else l.drop (l.length - k)

/-- similarities.argsort()[-top_k:][::-1]: the positions of the top_k highest
scores, highest first. -/
def top_indices (sims : List ℚ) (top_k : Nat) : List Nat :=
  (pySliceLast top_k (argsort sims)).reverse

/-- search_images_by_similarity reduced to index selection over the cosine
score vector: top-K selection first, then — when a minimum score is given —
the boolean mask similarities[top_indices] >= minimum_score.  The returned
filenames and scores are these indices mapped over the stored arrays. -/
def search_images_by_similarity_idxs (sims : List ℚ) (top_k : Nat)
    (minimum_score : Option ℚ) : List Nat :=
  let ti := top_indices sims top_k
  match minimum_score with
  | none => ti
  | some m => ti.filter (fun i => decide (m ≤ sims.getD i 0))

/-- search_images_by_text: identical selection with a non-optional minimum
score (default 0.2 instead of 0.6), the filter written as a comprehension. -/
def search_images_by_text_idxs (sims : List ℚ) (top_k : Nat) (m : ℚ) :
    List Nat :=
  (top_indices sims top_k).filter (fun i => decide (m ≤ sims.getD i 0))

/-- C3 counterexample: with top_k = 0, the Python slice [-0:] degenerates to
the whole array, so a one-image index whose single score clears the threshold returns one
result although the claim allows at most K = 0 results. -/
theorem topk_counterexample :
    search_images_by_similarity_idxs [9] 0 (some 3) = [0] ∧
    ¬ ((search_images_by_similarity_idxs [9] 0 (some 3)).length ≤ 0) := by
  constructor <;> decide

theorem pySliceLast_sublist {α : Type} (k : Nat) (l : List α) :
    (pySliceLast k l).Sublist l := by
  unfold pySliceLast
  split
  · exact List.Sublist.refl l
  · exact List.drop_sublist _ l

/-- C3 amended (for top_k ≥ 1): the result is sorted descending by score, has
at most top_k entries, every returned score meets the threshold, the
threshold is applied after top-K selection (the result is a sublist of the
unfiltered top-K, so fewer than K results are possible but never more, and
nothing is padded), and the text-query variant performs the identical
selection.  For top_k = 0 see the counterexample. -/
theorem topk_properties (sims : List ℚ) (top_k : Nat) (m : ℚ) (hK : 1 ≤ top_k) :
    ((search_images_by_similarity_idxs sims top_k (some m)).map
        (fun i => sims.getD i 0)).Pairwise (· ≥ ·) ∧
    (search_images_by_similarity_idxs sims top_k (some m)).length ≤ top_k ∧
    (∀ i ∈ search_images_by_similarity_idxs sims top_k (some m),
      m ≤ sims.getD i 0) ∧
    (search_images_by_similarity_idxs sims top_k (some m)).Sublist
      (top_indices sims top_k) ∧
    search_images_by_text_idxs sims top_k m
      = search_images_by_similarity_idxs sims top_k (some m) := by
  have hslice := pySliceLast_sublist top_k (argsort sims)
  have hsorted : (top_indices sims top_k).Pairwise
      (fun i j => sims.getD j 0 ≤ sims.getD i 0) := by
    unfold top_indices
    exact List.pairwise_reverse.mpr ((argsort_sorted sims).sublist hslice)
  have hfil : (search_images_by_similarity_idxs sims top_k (some m)).Pairwise
      (fun i j => sims.getD j 0 ≤ sims.getD i 0) :=
    hsorted.sublist (List.filter_sublist _)
  refine ⟨?_, ?_, ?_, ?_, rfl⟩
  · exact List.pairwise_map.mpr hfil
  · have h1 : (search_images_by_similarity_idxs sims top_k (some m)).length
        ≤ (top_indices sims top_k).length :=
      (List.filter_sublist _).length_le
    have h2 : (top_indices sims top_k).length ≤ top_k := by
      unfold top_indices pySliceLast
      rw [List.length_reverse, if_neg (by omega)]
      rw [List.length_drop]
      omega
    omega
  · intro i hi
    have := (List.mem_filter.mp hi).2
    simpa using this
  · exact List.filter_sublist _

/-- Witness for C3 amended on a concrete three-score search with K = 2. -/
theorem topk_properties_witness :
    (search_images_by_similarity_idxs [2, 9, 1] 2 (some 2)).length ≤ 2 :=
  (topk_properties [2, 9, 1] 2 2 (by decide)).2.1

/-! ## File discovery (get_image_files / get_image_files_from_directory) -/

/-- A candidate file: path, suffix (with the dot, original case), size in
bytes. -/
structure FileEntry where
  path : String
  suffix : String
  size : Nat
deriving DecidableEq, Repr

/-- The fixed extension allow-list. -/
def imageExts : List String :=
  [".jpg", ".jpeg", ".png", ".bmp", ".gif", ".webp", ".tiff"]

/-- str.lower() on a suffix (written on the character list so that the
kernel can evaluate it). -/
def lowerStr (s : String) : String := ⟨s.data.map Char.toLower⟩

/-- Default minimum_image_size: 100 KiB. -/
def minimum_image_size : Nat := 100 * 1024

/-- get_image_files_from_directory: os.walk visits every file below the
directory (here, the walk's file list); keep the files whose lowercased
suffix is in the allow-list AND whose size strictly exceeds the minimum. -/
def get_image_files_from_directory (minSize : Nat)
    (walkFiles : List FileEntry) : List FileEntry :=
  walkFiles.filter
    (fun f => decide (lowerStr f.suffix ∈ imageExts ∧ minSize < f.size))

/-- One element of an explicit path list: a directory (carrying the files its
recursive walk yields) or a bare file path. -/
inductive PathItem where
  | dir (walkFiles : List FileEntry)
  | file (f : FileEntry)

/-- get_image_files: a single directory is walked with the full filter; in
the explicit-list form each directory element is walked with the full
filter, but a bare file path is kept on the extension test alone — its size
is never checked. -/
def get_image_files (minSize : Nat) :
    (List FileEntry) ⊕ (List PathItem) → List FileEntry
  | .inl walkFiles => get_image_files_from_directory minSize walkFiles
  | .inr items =>
    items.flatMap fun it =>
      match it with
      | .dir walkFiles => get_image_files_from_directory minSize walkFiles
      | .file f => if lowerStr f.suffix ∈ imageExts then [f] else []

/-- C9 counterexample: an explicitly listed 10-byte thumb.jpg — far below the
102400-byte default threshold — is selected by get_image_files, because the
size filter runs only inside directory walks. -/
theorem discovery_size_filter_counterexample :
    get_image_files minimum_image_size
        (.inr [.file ⟨"/pics/thumb.jpg", ".jpg", 10⟩])
      = [⟨"/pics/thumb.jpg", ".jpg", 10⟩] ∧
    ¬ (minimum_image_size < 10) := by
  constructor
  · decide
  · decide

/-- C9 amended: every file selected by discovery has its lowercased extension
in the allow-list; the strict size threshold additionally holds for every
file found by a directory walk (the single-directory form, and directory
elements of the list form); an explicitly listed bare file path is exempt
from the size check. -/
theorem discovery_filter_properties (minSize : Nat) (walkFiles : List FileEntry)
    (items : List PathItem) :
    (∀ f ∈ get_image_files minSize (.inl walkFiles),
      lowerStr f.suffix ∈ imageExts ∧ minSize < f.size) ∧
    (∀ f ∈ get_image_files minSize (.inr items),
      lowerStr f.suffix ∈ imageExts ∧ (minSize < f.size ∨ .file f ∈ items)) := by
  constructor
  · intro f hf
    have hmem := List.mem_filter.mp hf
    simpa using hmem.2
  · intro f hf
    unfold get_image_files at hf
    rw [List.mem_flatMap] at hf
    obtain ⟨it, hit, hf'⟩ := hf
    cases it with
    | dir wfs =>
      have hmem := List.mem_filter.mp hf'
      have h2 : lowerStr f.suffix ∈ imageExts ∧ minSize < f.size := by
        simpa using hmem.2
      exact ⟨h2.1, Or.inl h2.2⟩
    | file g =>
      dsimp only at hf'
      by_cases hext : lowerStr g.suffix ∈ imageExts
      · rw [if_pos hext] at hf'
        have hfg : f = g := by simpa using hf'
        subst hfg
        exact ⟨hext, Or.inr hit⟩
      · rw [if_neg hext] at hf'
        exact absurd hf' (List.not_mem_nil f)

/-- Witness for C9 amended: a large upper-case .JPG found by a directory walk
satisfies both filter conjuncts. -/
theorem discovery_filter_properties_witness :
    lowerStr ".JPG" ∈ imageExts ∧ minimum_image_size < 200000 := by
  have h := (discovery_filter_properties minimum_image_size
      [⟨"/p/a.JPG", ".JPG", 200000⟩] []).1
    ⟨"/p/a.JPG", ".JPG", 200000⟩ (by decide)
  exact h

end Clipslide
